import Mathlib

/-!
Verification of the `abcsuite/abcutil` repository: the `hdkeychain`
BIP32-style hierarchical-deterministic key engine and the `Hash160`
helper.

The repository sources available here are `hash160.go` (embedded below as
`calcHash`/`Hash160`) and the `hdkeychain` test-suite
(`extendedkey_test.go`).  The implementation file of the `hdkeychain`
package itself is not part of the source tree, so the extended-key state
machine is modelled from the specification document, with every point
where the test-suite pins the observable behaviour (exact error values,
exact serialized strings, exact derivation vectors) taken from the tests.
The cryptographic collaborators named by the specification (SHA-512 for
HMAC, the chain hash BLAKE-256, RIPEMD-160, secp256k1, base58) are spelled
out executably so that all the concrete test vectors of the suite can be
checked by evaluation inside the logic.

Bytes are modelled as natural numbers (meaningful values are `< 256`);
byte strings as `List Nat`.  All recursion is structural (fuel-based where
the natural recursion is not structural) so that every definition
evaluates by kernel reduction.
-/

set_option maxRecDepth 8000000
set_option maxHeartbeats 8000000

deriving instance DecidableEq for Except

namespace Abcutil

/-- Byte strings: lists of naturals, meaningful entries are `< 256`. -/
abbrev Bytes := List Nat

/-- Big-endian value of a byte string. -/
def beToNat (l : Bytes) : Nat := l.foldl (fun a b => a * 256 + b) 0

/-- Little-endian value of a byte string. -/
def leToNat (l : Bytes) : Nat := l.foldr (fun b a => b + 256 * a) 0

/-- Fixed-width big-endian bytes of a natural number (width `w`). -/
def natToBEPad (w : Nat) (n : Nat) : Bytes :=
  match w with
  | 0 => []
  | w + 1 => natToBEPad w (n / 256) ++ [n % 256]

/-- Fixed-width little-endian bytes of a natural number (width `w`). -/
def natToLEPad (w : Nat) (n : Nat) : Bytes :=
  match w with
  | 0 => []
  | w + 1 => n % 256 :: natToLEPad w (n / 256)

/-- Minimal big-endian digits of `n` in base `base` (most significant
first).  `fuel` bounds the recursion; any `fuel ≥ n` is sufficient. -/
def digitsBE (base : Nat) : Nat → Nat → List Nat
  | 0, _ => []
  | fuel + 1, n => if n = 0 then [] else digitsBE base fuel (n / base) ++ [n % base]

/-- Split a list into chunks of `n` elements (fuel-based). -/
def chunksF (n : Nat) : Nat → List Nat → List (List Nat)
  | 0, _ => []
  | _, [] => []
  | fuel + 1, l => l.take n :: chunksF n fuel (l.drop n)

/-- Chunks of `n` elements of a byte string. -/
def chunks (n : Nat) (l : Bytes) : List (List Nat) := chunksF n l.length l

/-! ## SHA-512 (the HMAC hash named by the specification, §6) -/

/-- Truncated 64-bit sum. -/
def add64 (a b : Nat) : Nat := (a + b) % 2 ^ 64

/-- 64-bit right rotation. -/
def rotr64 (x n : Nat) : Nat := ((x >>> n) ||| (x <<< (64 - n))) % 2 ^ 64

/-- SHA-512 round constants (FIPS 180-4, written in decimal). -/
def sha512K : List Nat :=
  [4794697086780616226, 8158064640168781261, 13096744586834688815,
   16840607885511220156, 4131703408338449720, 6480981068601479193,
   10538285296894168987, 12329834152419229976, 15566598209576043074,
   1334009975649890238, 2608012711638119052, 6128411473006802146,
   8268148722764581231, 9286055187155687089, 11230858885718282805,
   13951009754708518548, 16472876342353939154, 17275323862435702243,
   1135362057144423861, 2597628984639134821, 3308224258029322869,
   5365058923640841347, 6679025012923562964, 8573033837759648693,
   10970295158949994411, 12119686244451234320, 12683024718118986047,
   13788192230050041572, 14330467153632333762, 15395433587784984357,
   489312712824947311, 1452737877330783856, 2861767655752347644,
   3322285676063803686, 5560940570517711597, 5996557281743188959,
   7280758554555802590, 8532644243296465576, 9350256976987008742,
   10552545826968843579, 11727347734174303076, 12113106623233404929,
   14000437183269869457, 14369950271660146224, 15101387698204529176,
   15463397548674623760, 17586052441742319658, 1182934255886127544,
   1847814050463011016, 2177327727835720531, 2830643537854262169,
   3796741975233480872, 4115178125766777443, 5681478168544905931,
   6601373596472566643, 7507060721942968483, 8399075790359081724,
   8693463985226723168, 9568029438360202098, 10144078919501101548,
   10430055236837252648, 11840083180663258601, 13761210420658862357,
   14299343276471374635, 14566680578165727644, 15097957966210449927,
   16922976911328602910, 17689382322260857208, 500013540394364858,
   748580250866718886, 1242879168328830382, 1977374033974150939,
   2944078676154940804, 3659926193048069267, 4368137639120453308,
   4836135668995329356, 5532061633213252278, 6448918945643986474,
   6902733635092675308, 7801388544844847127]

/-- SHA-512 initial hash value (FIPS 180-4, written in decimal). -/
def sha512IV : List Nat :=
  [7640891576956012808, 13503953896175478587, 4354685564936845355,
   11912009170470909681, 5840696475078001361, 11170449401992604703,
   2270897969802886507, 6620516959819538809]

/-- One message-schedule extension step: prepend the next word to the
reversed schedule. -/
def sha512ExtStep (rev : List Nat) : List Nat :=
  let g := fun i => rev.getD i 0
  let s1 := (rotr64 (g 1) 19) ^^^ (rotr64 (g 1) 61) ^^^ ((g 1) >>> 6)
  let s0 := (rotr64 (g 14) 1) ^^^ (rotr64 (g 14) 8) ^^^ ((g 14) >>> 7)
  add64 (add64 s1 (g 6)) (add64 s0 (g 15)) :: rev

/-- Iterate the schedule extension `t` times. -/
def sha512Ext : Nat → List Nat → List Nat
  | 0, rev => rev
  | t + 1, rev => sha512Ext t (sha512ExtStep rev)

/-- SHA-512 working state. -/
abbrev Sha512St := Nat × Nat × Nat × Nat × Nat × Nat × Nat × Nat

/-- One SHA-512 round, consuming a `(constant, scheduleWord)` pair. -/
def sha512Round (st : Sha512St) (kw : Nat × Nat) : Sha512St :=
  let (a, b, c, d, e, f, g, h) := st
  let S1 := (rotr64 e 14) ^^^ (rotr64 e 18) ^^^ (rotr64 e 41)
  let ch := (e &&& f) ^^^ ((0xffffffffffffffff ^^^ e) &&& g)
  let t1 := add64 (add64 (add64 h S1) (add64 ch kw.1)) kw.2
  let S0 := (rotr64 a 28) ^^^ (rotr64 a 34) ^^^ (rotr64 a 39)
  let mj := (a &&& b) ^^^ (a &&& c) ^^^ (b &&& c)
  let t2 := add64 S0 mj
  (add64 t1 t2, a, b, c, add64 d t1, e, f, g)

/-- SHA-512 compression of one 128-byte block into the chaining value. -/
def sha512Compress (h : List Nat) (block : Bytes) : List Nat :=
  let w16 := (chunks 8 block).map beToNat
  let w := (sha512Ext 64 w16.reverse).reverse
  let g := fun i => h.getD i 0
  let fin := (sha512K.zip w).foldl sha512Round
    (g 0, g 1, g 2, g 3, g 4, g 5, g 6, g 7)
  let (a, b, c, d, e, f, gg, hh) := fin
  [add64 (g 0) a, add64 (g 1) b, add64 (g 2) c, add64 (g 3) d,
   add64 (g 4) e, add64 (g 5) f, add64 (g 6) gg, add64 (g 7) hh]

/-- SHA-512 of a byte string. -/
def sha512 (msg : Bytes) : Bytes :=
  let bitlen := 8 * msg.length
  let padded := msg ++ [0x80] ++
    List.replicate ((128 - (msg.length + 17) % 128) % 128) 0 ++ natToBEPad 16 bitlen
  ((chunks 128 padded).foldl sha512Compress sha512IV).map (natToBEPad 8) |>.flatten

/-- HMAC-SHA512 with a key of at most 128 bytes (all keys used by the
key-derivation engine are at most 32 bytes). -/
def hmacSha512 (key msg : Bytes) : Bytes :=
  let k0 := key ++ List.replicate (128 - key.length) 0
  sha512 ((k0.map (· ^^^ 0x5c)) ++ sha512 ((k0.map (· ^^^ 0x36)) ++ msg))

/-! ## BLAKE-256 (the chain hash `chainhash.HashB` of the `abcd`
dependency, used for checksums and for `Hash160`) -/

/-- Truncated 32-bit sum. -/
def add32 (a b : Nat) : Nat := (a + b) % 2 ^ 32

/-- 32-bit right rotation. -/
def rotr32 (x n : Nat) : Nat := ((x >>> n) ||| (x <<< (32 - n))) % 2 ^ 32

/-- 32-bit left rotation. -/
def rotl32 (x n : Nat) : Nat := ((x <<< n) ||| (x >>> (32 - n))) % 2 ^ 32

/-- BLAKE-256 permutation schedule. -/
def blakeSigma : List (List Nat) :=
  [[0, 1, 2, 3, 4, 5, 6, 7, 8, 9, 10, 11, 12, 13, 14, 15],
   [14, 10, 4, 8, 9, 15, 13, 6, 1, 12, 0, 2, 11, 7, 5, 3],
   [11, 8, 12, 0, 5, 2, 15, 13, 10, 14, 3, 6, 7, 1, 9, 4],
   [7, 9, 3, 1, 13, 12, 11, 14, 2, 6, 5, 10, 4, 0, 15, 8],
   [9, 0, 5, 7, 2, 4, 10, 15, 14, 1, 11, 12, 6, 8, 3, 13],
   [2, 12, 6, 10, 0, 11, 8, 3, 4, 13, 7, 5, 15, 14, 1, 9],
   [12, 5, 1, 15, 14, 13, 4, 10, 0, 7, 6, 3, 9, 2, 8, 11],
   [13, 11, 7, 14, 12, 1, 3, 9, 5, 0, 15, 4, 8, 6, 2, 10],
   [6, 15, 14, 9, 11, 3, 0, 8, 12, 2, 13, 7, 1, 4, 10, 5],
   [10, 2, 8, 4, 7, 6, 1, 5, 15, 11, 9, 14, 3, 12, 13, 0]]

/-- BLAKE-256 constants (leading hex digits of π). -/
def blakeCst : List Nat :=
  [0x243f6a88, 0x85a308d3, 0x13198a2e, 0x03707344,
   0xa4093822, 0x299f31d0, 0x082efa98, 0xec4e6c89,
   0x452821e6, 0x38d01377, 0xbe5466cf, 0x34e90c6c,
   0xc0ac29b7, 0xc97c50dd, 0x3f84d5b5, 0xb5470917]

/-- BLAKE-256 initial chaining value (the SHA-256 IV). -/
def blakeIV : List Nat :=
  [0x6a09e667, 0xbb67ae85, 0x3c6ef372, 0xa54ff53a,
   0x510e527f, 0x9b05688c, 0x1f83d9ab, 0x5be0cd19]

/-- The BLAKE `G` quarter-round on state positions `a b c d`. -/
def blakeG (m sig : List Nat) (i a b c d : Nat) (v : List Nat) : List Nat :=
  let mi := fun j => m.getD (sig.getD j 0) 0
  let ci := fun j => blakeCst.getD (sig.getD j 0) 0
  let va := add32 (add32 (v.getD a 0) (v.getD b 0)) ((mi (2 * i)) ^^^ (ci (2 * i + 1)))
  let vd := rotr32 ((v.getD d 0) ^^^ va) 16
  let vc := add32 (v.getD c 0) vd
  let vb := rotr32 ((v.getD b 0) ^^^ vc) 12
  let va2 := add32 (add32 va vb) ((mi (2 * i + 1)) ^^^ (ci (2 * i)))
  let vd2 := rotr32 (vd ^^^ va2) 8
  let vc2 := add32 vc vd2
  let vb2 := rotr32 (vb ^^^ vc2) 7
  ((((v.set a va2).set b vb2).set c vc2).set d vd2)

/-- One BLAKE-256 round: four column calls then four diagonal calls. -/
def blakeRound (m : List Nat) (v : List Nat) (r : Nat) : List Nat :=
  let sig := blakeSigma.getD (r % 10) []
  let v := blakeG m sig 0 0 4 8 12 v
  let v := blakeG m sig 1 1 5 9 13 v
  let v := blakeG m sig 2 2 6 10 14 v
  let v := blakeG m sig 3 3 7 11 15 v
  let v := blakeG m sig 4 0 5 10 15 v
  let v := blakeG m sig 5 1 6 11 12 v
  let v := blakeG m sig 6 2 7 8 13 v
  blakeG m sig 7 3 4 9 14 v

/-- BLAKE-256 compression of one 64-byte block with counter `t`
(message bits hashed so far, including this block). -/
def blakeCompress (h : List Nat) (block : Bytes) (t : Nat) : List Nat :=
  let m := (chunks 4 block).map beToNat
  let g := fun i => h.getD i 0
  let c := fun i => blakeCst.getD i 0
  let v0 := [g 0, g 1, g 2, g 3, g 4, g 5, g 6, g 7,
             c 0, c 1, c 2, c 3,
             (t % 2 ^ 32) ^^^ c 4, (t % 2 ^ 32) ^^^ c 5,
             ((t >>> 32) % 2 ^ 32) ^^^ c 6, ((t >>> 32) % 2 ^ 32) ^^^ c 7]
  let v := (List.range 14).foldl (blakeRound m) v0
  (List.range 8).map (fun i => (g i) ^^^ (v.getD i 0) ^^^ (v.getD (i + 8) 0))

/-- Final (padded) one- or two-block step of BLAKE-256.  A block made
purely of padding is compressed with counter `0`. -/
def blakeFinal (h : List Nat) (rest : Bytes) (bitlen : Nat) : List Nat :=
  let r := rest.length
  let pad :=
    if r = 55 then rest ++ [0x81] ++ natToBEPad 8 bitlen
    else if r ≤ 54 then
      rest ++ [0x80] ++ List.replicate (54 - r) 0 ++ [0x01] ++ natToBEPad 8 bitlen
    else rest ++ [0x80] ++ List.replicate (118 - r) 0 ++ [0x01] ++ natToBEPad 8 bitlen
  if pad.length ≤ 64 then blakeCompress h pad bitlen
  else blakeCompress (blakeCompress h (pad.take 64) bitlen) (pad.drop 64) 0

/-- Main BLAKE-256 loop over the full 64-byte blocks that are followed by
more message bytes; the final (≤ 64 byte) remainder goes through
`blakeFinal`. -/
def blakeLoop (bitlen : Nat) : Nat → List Nat → Nat → Bytes → List Nat
  | 0, h, _, msgRem => blakeFinal h msgRem bitlen
  | fuel + 1, h, t, msgRem =>
    if 64 < msgRem.length then
      blakeLoop bitlen fuel (blakeCompress h (msgRem.take 64) (t + 512)) (t + 512)
        (msgRem.drop 64)
    else blakeFinal h msgRem bitlen

/-- BLAKE-256 of a byte string. -/
def blake256 (msg : Bytes) : Bytes :=
  ((blakeLoop (8 * msg.length) msg.length blakeIV 0 msg).map (natToBEPad 4)).flatten

/-! ## RIPEMD-160 (named by the specification §6 for `hash160`,
fingerprints and addresses) -/

/-- RIPEMD-160 selection function for step `j`. -/
def ripF (j x y z : Nat) : Nat :=
  if j < 16 then x ^^^ y ^^^ z
  else if j < 32 then (x &&& y) ||| ((x ^^^ 0xffffffff) &&& z)
  else if j < 48 then (x ||| (y ^^^ 0xffffffff)) ^^^ z
  else if j < 64 then (x &&& z) ||| (y &&& (z ^^^ 0xffffffff))
  else x ^^^ (y ||| (z ^^^ 0xffffffff))

/-- RIPEMD-160 left-line round constants. -/
def ripKL (j : Nat) : Nat :=
  if j < 16 then 0 else if j < 32 then 0x5a827999 else if j < 48 then 0x6ed9eba1
  else if j < 64 then 0x8f1bbcdc else 0xa953fd4e

/-- RIPEMD-160 right-line round constants. -/
def ripKR (j : Nat) : Nat :=
  if j < 16 then 0x50a28be6 else if j < 32 then 0x5c4dd124
  else if j < 48 then 0x6d703ef3 else if j < 64 then 0x7a6d76e9 else 0

/-- RIPEMD-160 left-line message word order. -/
def ripRL : List Nat :=
  [0, 1, 2, 3, 4, 5, 6, 7, 8, 9, 10, 11, 12, 13, 14, 15,
   7, 4, 13, 1, 10, 6, 15, 3, 12, 0, 9, 5, 2, 14, 11, 8,
   3, 10, 14, 4, 9, 15, 8, 1, 2, 7, 0, 6, 13, 11, 5, 12,
   1, 9, 11, 10, 0, 8, 12, 4, 13, 3, 7, 15, 14, 5, 6, 2,
   4, 0, 5, 9, 7, 12, 2, 10, 14, 1, 3, 8, 11, 6, 15, 13]

/-- RIPEMD-160 right-line message word order. -/
def ripRR : List Nat :=
  [5, 14, 7, 0, 9, 2, 11, 4, 13, 6, 15, 8, 1, 10, 3, 12,
   6, 11, 3, 7, 0, 13, 5, 10, 14, 15, 8, 12, 4, 9, 1, 2,
   15, 5, 1, 3, 7, 14, 6, 9, 11, 8, 12, 2, 10, 0, 4, 13,
   8, 6, 4, 1, 3, 11, 15, 0, 5, 12, 2, 13, 9, 7, 10, 14,
   12, 15, 10, 4, 1, 5, 8, 7, 6, 2, 13, 14, 0, 3, 9, 11]

/-- RIPEMD-160 left-line rotation amounts. -/
def ripSL : List Nat :=
  [11, 14, 15, 12, 5, 8, 7, 9, 11, 13, 14, 15, 6, 7, 9, 8,
   7, 6, 8, 13, 11, 9, 7, 15, 7, 12, 15, 9, 11, 7, 13, 12,
   11, 13, 6, 7, 14, 9, 13, 15, 14, 8, 13, 6, 5, 12, 7, 5,
   11, 12, 14, 15, 14, 15, 9, 8, 9, 14, 5, 6, 8, 6, 5, 12,
   9, 15, 5, 11, 6, 8, 13, 12, 5, 12, 13, 14, 11, 8, 5, 6]

/-- RIPEMD-160 right-line rotation amounts. -/
def ripSR : List Nat :=
  [8, 9, 9, 11, 13, 15, 15, 5, 7, 7, 8, 11, 14, 14, 12, 6,
   9, 13, 15, 7, 12, 8, 9, 11, 7, 7, 12, 7, 6, 15, 13, 11,
   9, 7, 15, 11, 8, 6, 6, 14, 12, 13, 5, 14, 13, 13, 7, 5,
   15, 5, 8, 11, 14, 14, 6, 14, 6, 9, 12, 9, 12, 5, 15, 8,
   8, 5, 12, 9, 12, 5, 14, 6, 8, 13, 6, 5, 15, 13, 11, 11]

/-- One RIPEMD-160 step of the left (`left = true`) or right line. -/
def ripStep (X : List Nat) (left : Bool) (st : Nat × Nat × Nat × Nat × Nat)
    (j : Nat) : Nat × Nat × Nat × Nat × Nat :=
  let (a, b, c, d, e) := st
  let f := if left then ripF j b c d else ripF (79 - j) b c d
  let k := if left then ripKL j else ripKR j
  let ri := if left then ripRL.getD j 0 else ripRR.getD j 0
  let si := if left then ripSL.getD j 0 else ripSR.getD j 0
  let t := add32 (rotl32 ((a + f + X.getD ri 0 + k) % 2 ^ 32) si) e
  (e, t, b, rotl32 c 10, d)

/-- RIPEMD-160 compression of one 64-byte block.  The two parallel lines
are folded separately; the five output words combine them in the rotated
pattern of the design. -/
def ripCompress (h : List Nat) (block : Bytes) : List Nat :=
  let X := (chunks 4 block).map leToNat
  let g := fun i => h.getD i 0
  let L := (List.range 80).foldl (ripStep X true) (g 0, g 1, g 2, g 3, g 4)
  let R := (List.range 80).foldl (ripStep X false) (g 0, g 1, g 2, g 3, g 4)
  [add32 (g 1) (add32 L.2.2.1 R.2.2.2.1),
   add32 (g 2) (add32 L.2.2.2.1 R.2.2.2.2),
   add32 (g 3) (add32 L.2.2.2.2 R.1),
   add32 (g 4) (add32 L.1 R.2.1),
   add32 (g 0) (add32 L.2.1 R.2.2.1)]

/-- RIPEMD-160 of a byte string. -/
def ripemd160 (msg : Bytes) : Bytes :=
  let bitlen := 8 * msg.length
  let padded := msg ++ [0x80] ++
    List.replicate ((64 - (msg.length + 9) % 64) % 64) 0 ++ natToLEPad 8 bitlen
  (((chunks 64 padded).foldl ripCompress
    [0x67452301, 0xefcdab89, 0x98badcfe, 0x10325476, 0xc3d2e1f0]).map
    (natToLEPad 4)).flatten

/-! ## The chain hash and `Hash160` (source: `hash160.go`) -/

/-- `chainhash.HashB` of the `abcd` dependency: a single BLAKE-256
application.  (External collaborator of `hash160.go`; pinned by the
repository's own serialization and fingerprint test vectors.) -/
def chainhashHashB (b : Bytes) : Bytes := blake256 b

/-- `calcHash` of `hash160.go`: the hash of `hasher` over `buf`. -/
def calcHash (buf : Bytes) (hasher : Bytes → Bytes) : Bytes := hasher buf

/-- `Hash160` of `hash160.go`: `ripemd160(chainhash.HashB(b))`. -/
def Hash160 (buf : Bytes) : Bytes := calcHash (chainhashHashB buf) ripemd160

/-! ## secp256k1 (curve collaborator, specification §4.2/§6) -/

/-- The secp256k1 field characteristic. -/
def secpP : Nat := 2 ^ 256 - 2 ^ 32 - 977

/-- The secp256k1 group order. -/
def secpN : Nat :=
  0xfffffffffffffffffffffffffffffffebaaedce6af48a03bbfd25e8cd0364141

/-- x-coordinate of the secp256k1 base point. -/
def secpGx : Nat :=
  0x79be667ef9dcbbac55a06295ce870b07029bfcdb2dce28d959f2815b16f81798

/-- y-coordinate of the secp256k1 base point. -/
def secpGy : Nat :=
  0x483ada7726a3c4655da4fbfc0e1108a8fd17b448a68554199c47d08ffb10d4b8

/-- Field multiplication. -/
def fmul (a b : Nat) : Nat := a * b % secpP

/-- Field addition. -/
def fadd (a b : Nat) : Nat := (a + b) % secpP

/-- Field subtraction. -/
def fsub (a b : Nat) : Nat := (a % secpP + (secpP - b % secpP)) % secpP

/-- Modular exponentiation by repeated squaring (fuel-based; any
`fuel` with `2 ^ fuel > e` is sufficient). -/
def powMod : Nat → Nat → Nat → Nat → Nat
  | 0, _, _, m => 1 % m
  | fuel + 1, b, e, m =>
    if e = 0 then 1 % m
    else
      let r := powMod fuel (b * b % m) (e / 2) m
      if e % 2 = 1 then r * b % m else r

/-- Field inverse via Fermat's little theorem. -/
def finv (a : Nat) : Nat := powMod 257 a (secpP - 2) secpP

/-- A point in Jacobian coordinates; `z = 0` encodes the point at
infinity. -/
structure JPoint where
  x : Nat
  y : Nat
  z : Nat
  deriving DecidableEq, Repr

/-- The point at infinity. -/
def jInf : JPoint := ⟨1, 1, 0⟩

/-- Jacobian point doubling (curve `y² = x³ + 7`, so `a = 0`). -/
def jDouble (q : JPoint) : JPoint :=
  if q.z = 0 then jInf
  else if q.y = 0 then jInf
  else
    let ys := fmul q.y q.y
    let yq := fmul ys ys
    let s := fmul 4 (fmul q.x ys)
    let m := fmul 3 (fmul q.x q.x)
    let x3 := fsub (fmul m m) (fadd s s)
    let y3 := fsub (fmul m (fsub s x3)) (fmul 8 yq)
    let z3 := fmul 2 (fmul q.y q.z)
    ⟨x3, y3, z3⟩

/-- Mixed addition of a Jacobian point and an affine point. -/
def jAddAffine (q : JPoint) (ax ay : Nat) : JPoint :=
  if q.z = 0 then ⟨ax % secpP, ay % secpP, 1⟩
  else
    let z2 := fmul q.z q.z
    let u2 := fmul ax z2
    let s2 := fmul ay (fmul q.z z2)
    let h := fsub u2 q.x
    let r := fsub s2 q.y
    if h = 0 then (if r = 0 then jDouble q else jInf)
    else
      let h2 := fmul h h
      let h3 := fmul h h2
      let xh2 := fmul q.x h2
      let x3 := fsub (fmul r r) (fadd h3 (fadd xh2 xh2))
      let y3 := fsub (fmul r (fsub xh2 x3)) (fmul q.y h3)
      ⟨x3, y3, fmul q.z h⟩

/-- Double-and-add scalar multiplication of the affine point
`(ax, ay)`, processing bit `fuel - 1` of `k` downwards. -/
def jMulBits (ax ay : Nat) : Nat → JPoint → Nat → JPoint
  | 0, acc, _ => acc
  | fuel + 1, acc, k =>
    let acc := jDouble acc
    let acc := if (k >>> fuel) % 2 = 1 then jAddAffine acc ax ay else acc
    jMulBits ax ay fuel acc k

/-- `k·G` for the secp256k1 base point `G`. -/
def mulG (k : Nat) : JPoint := jMulBits secpGx secpGy 256 jInf k

/-- Jacobian to affine conversion; `none` for the point at infinity. -/
def toAffine (q : JPoint) : Option (Nat × Nat) :=
  if q.z = 0 then none
  else
    let zi := finv q.z
    let zi2 := fmul zi zi
    some (fmul q.x zi2, fmul q.y (fmul zi zi2))

/-- 33-byte compressed serialization of an affine point. -/
def serPoint (pt : Nat × Nat) : Bytes :=
  (if pt.2 % 2 = 1 then 3 else 2) :: natToBEPad 32 pt.1

/-- The compressed public key bytes of the private scalar `k`
(`serializeCompressed` of the scalar's public key). -/
def pubKeyOfScalar (k : Nat) : Bytes :=
  match toAffine (mulG k) with
  | none => []
  | some pt => serPoint pt

/-! ## Base58 and base58check (Codec collaborator, specification §4.1) -/

/-- The base58 alphabet. -/
def b58Chars : List Char :=
  "123456789ABCDEFGHJKLMNPQRSTUVWXYZabcdefghijkmnopqrstuvwxyz".data

/-- Value of one base58 character (`none` for characters outside the
alphabet). -/
def b58Val (c : Char) : Option Nat := b58Chars.indexOf? c

/-- Character of one base58 digit. -/
def b58Digit (d : Nat) : Char := b58Chars.getD d ' '

/-- Number of leading zero entries of a list of naturals. -/
def countLeadZero : List Nat → Nat
  | [] => 0
  | d :: r => if d = 0 then countLeadZero r + 1 else 0

/-- Base58 encoding of a byte string: one `'1'` per leading zero byte,
then the base58 digits of the big-endian value. -/
def b58Encode (b : Bytes) : String :=
  let v := beToNat b
  ⟨List.replicate (countLeadZero b) '1' ++ (digitsBE 58 v v).map b58Digit⟩

/-- Values of a base58 character string; `none` if any character falls
outside the alphabet. -/
def b58Vals : List Char → Option (List Nat)
  | [] => some []
  | c :: r =>
    match b58Val c, b58Vals r with
    | some d, some ds => some (d :: ds)
    | _, _ => none

/-- Base58 decoding.  As in the Go base58 package consumed by the
repository, a string containing a character outside the alphabet decodes
to the empty byte string. -/
def b58Decode (s : String) : Bytes :=
  match b58Vals s.data with
  | none => []
  | some ds =>
    let v := ds.foldl (fun a d => a * 58 + d) 0
    List.replicate (countLeadZero ds) 0 ++ digitsBE 256 v v

/-- First four bytes of the double BLAKE-256 of `payload`: the
base58check checksum used by the repository's codec (pinned by the
test-suite's serialized vectors). -/
def checksum4 (payload : Bytes) : Bytes := (blake256 (blake256 payload)).take 4

/-- base58check encoding: payload plus 4-byte double-hash checksum. -/
def b58CheckEncode (payload : Bytes) : String :=
  b58Encode (payload ++ checksum4 payload)

/-! ## Network parameters (the chaincfg registry collaborator, §6)

Modelled from the spec: the version table maps each supported network to
one 4-byte private prefix and one 4-byte public prefix; the concrete
prefix bytes are pinned by the serialized vectors of the test-suite
(`aprv`/`apub`, `tprv`/`tpub`, `sprv`/`spub` strings), and the
pay-to-pubkey-hash address prefix of the main network by its address
vectors.  The address prefixes of the test networks are not exercised by
any claim and are left empty. -/

/-- A network parameter record (the slice of `chaincfg.Params` the
key-derivation engine reads). -/
structure Params where
  hdPrivateKeyID : Bytes
  hdPublicKeyID : Bytes
  pubKeyHashAddrID : Bytes
  deriving DecidableEq, Repr

/-- Main network parameters. -/
def mainNetParams : Params :=
  ⟨[0x02, 0xbf, 0x45, 0x2c], [0x02, 0xbf, 0x49, 0x67], [0x05, 0x66]⟩

/-- Second test network parameters. -/
def testNet2Params : Params :=
  ⟨[0x04, 0x35, 0x83, 0x97], [0x04, 0x35, 0x87, 0xd1], []⟩

/-- Simulation network parameters. -/
def simNetParams : Params :=
  ⟨[0x04, 0x20, 0xb9, 0x03], [0x04, 0x20, 0xbd, 0x3d], []⟩

/-- The registered networks of the version table. -/
def hdVersionTable : List Params := [mainNetParams, testNet2Params, simNetParams]

/-- The error taxonomy of the engine (specification §7, error values
pinned by the test-suite). -/
inductive KeyErr where
  /-- `ErrInvalidSeedLen`: seed outside `[16, 64]` bytes. -/
  | invalidSeedLen
  /-- `ErrUnusableSeed`: derived scalar outside `[1, n-1]`. -/
  | unusableSeed
  /-- `ErrDeriveHardFromPublic`. -/
  | deriveHardFromPublic
  /-- `ErrInvalidChild`. -/
  | invalidChild
  /-- `ErrInvalidKeyLen`: serialized key does not decode to 82 bytes. -/
  | invalidKeyLen
  /-- `ErrBadChecksum`. -/
  | badChecksum
  /-- `ErrNotPrivExtKey`: private material requested from a public key. -/
  | notPrivExtKey
  /-- `chaincfg.ErrUnknownHDKeyID`: version-table lookup failure. -/
  | unknownHDKeyID
  /-- The "zeroed extended key" serialization failure. -/
  | zeroedExtendedKey
  /-- An error surfaced by the secp256k1 public-key parser. -/
  | pubKeyErr (msg : String)
  deriving DecidableEq, Repr

/-- `chaincfg.HDPrivateKeyToPublicKeyID`: maps a private version prefix to
the matching public prefix, failing with `ErrUnknownHDKeyID` on an
unregistered prefix.  Modelled from the spec (§6 network registry). -/
def hdPrivateKeyToPublicKeyID (version : Bytes) : Except KeyErr Bytes :=
  match hdVersionTable.find? (fun p => p.hdPrivateKeyID == version) with
  | some p => .ok p.hdPublicKeyID
  | none => .error .unknownHDKeyID

/-- `secp256k1.ParsePubKey` restricted to the 33-byte compressed format
used by the engine: rejects the empty string (with the exact message the
test-suite checks), wrong lengths, bad format bytes and points outside
the curve; accepts a valid compressed point and returns its affine
coordinates. -/
def parsePubKey (b : Bytes) : Except KeyErr (Nat × Nat) :=
  match b with
  | [] => .error (.pubKeyErr "pubkey string is empty")
  | b0 :: rest =>
    if b.length ≠ 33 then .error (.pubKeyErr "invalid pub key length")
    else if b0 ≠ 2 ∧ b0 ≠ 3 then .error (.pubKeyErr "invalid magic in compressed pubkey string")
    else
      let x := beToNat rest
      let ysq := (powMod 257 x 3 secpP + 7) % secpP
      let y0 := powMod 257 ysq ((secpP + 1) / 4) secpP
      if fmul y0 y0 ≠ ysq then .error (.pubKeyErr "pubkey isn't on secp256k1 curve")
      else .ok (x % secpP, if y0 % 2 = b0 % 2 then y0 else secpP - y0)

/-! ## The `ExtendedKey` state machine

Modelled from the spec: the implementation file of the `hdkeychain`
package is not in the source tree; the entity and its operations follow
§3/§4.3 of the specification, with observable behaviour (field shapes,
error values, serialized strings) pinned by `extendedkey_test.go`.  The
`key` attribute is the 33-byte serialized key slot: `0x00 ‖ scalar` for a
private key, a compressed point for a public key (§3); zeroing empties
the buffers, which is how the "zeroed" state is recognised. -/

structure ExtendedKey where
  version : Bytes
  key : Bytes
  chainCode : Bytes
  parentFP : Bytes
  depth : Nat
  childNum : Nat
  isPrivate : Bool
  deriving DecidableEq, Repr

/-- `HardenedKeyStart`: indices at or above `2^31` are hardened. -/
def HardenedKeyStart : Nat := 2 ^ 31

/-- `MinSeedBytes` (128 bits). -/
def MinSeedBytes : Nat := 16

/-- `MaxSeedBytes` (512 bits). -/
def MaxSeedBytes : Nat := 64

/-- `RecommendedSeedLen` (256 bits). -/
def RecommendedSeedLen : Nat := 32

/-- The serialized compressed public key of an extended key: the stored
point for a public key, the point computed from the private scalar for a
private key (`pubKeyBytes` of the original design; the memoisation cache
is not observable in a pure model). -/
def pubKeyBytes (k : ExtendedKey) : Bytes :=
  if k.isPrivate then pubKeyOfScalar (beToNat (k.key.drop 1)) else k.key

/-- Modelled from the spec: master creation `NewMaster(seed, net)`
(§4.3).  HMAC-SHA512 with the fixed domain-separation key over the seed;
the left half is the master scalar, the right half the chain code. -/
def newMaster (seed : Bytes) (net : Params) : Except KeyErr ExtendedKey :=
  if seed.length < MinSeedBytes ∨ MaxSeedBytes < seed.length then
    .error .invalidSeedLen
  else
    let lr := hmacSha512 ("Bitcoin seed".data.map Char.toNat) seed
    let il := lr.take 32
    let ir := lr.drop 32
    let ilNum := beToNat il
    if ilNum = 0 ∨ secpN ≤ ilNum then .error .unusableSeed
    else
      .ok ⟨net.hdPrivateKeyID, 0 :: il, ir, [0, 0, 0, 0], 0, 0, true⟩

/-- Modelled from the spec: child derivation `Child(index)` (§4.3).
Hardened children of a public parent are rejected before any HMAC;
otherwise the HMAC-SHA512 of (key material ‖ index) keyed by the chain
code is split, the left half validated against the group order, and the
child key computed by scalar addition (private parent) or point addition
(public parent). -/
def child (k : ExtendedKey) (i : Nat) : Except KeyErr ExtendedKey :=
  let hardened := HardenedKeyStart ≤ i
  if k.isPrivate = false ∧ hardened then .error .deriveHardFromPublic
  else
    let data := (if hardened then k.key else pubKeyBytes k) ++ natToBEPad 4 i
    let lr := hmacSha512 k.chainCode data
    let il := lr.take 32
    let ir := lr.drop 32
    let ilNum := beToNat il
    if ilNum = 0 ∨ secpN ≤ ilNum then .error .invalidChild
    else
      let fp := (Hash160 (pubKeyBytes k)).take 4
      if k.isPrivate then
        let childScalar := (ilNum + beToNat (k.key.drop 1)) % secpN
        if childScalar = 0 then .error .invalidChild
        else
          .ok ⟨k.version, 0 :: natToBEPad 32 childScalar, ir, fp, k.depth + 1, i, true⟩
      else
        match parsePubKey k.key with
        | .error e => .error e
        | .ok pt =>
          match toAffine (jAddAffine (mulG ilNum) pt.1 pt.2) with
          | none => .error .invalidChild
          | some cpt =>
            .ok ⟨k.version, serPoint cpt, ir, fp, k.depth + 1, i, false⟩

/-- Modelled from the spec: `Neuter()` (§4.3).  A public key is returned
unchanged; a private key is replaced by its public counterpart with the
version remapped through the registry. -/
def neuter (k : ExtendedKey) : Except KeyErr ExtendedKey :=
  if k.isPrivate = false then .ok k
  else
    match hdPrivateKeyToPublicKeyID k.version with
    | .error e => .error e
    | .ok pubVersion =>
      .ok ⟨pubVersion, pubKeyBytes k, k.chainCode, k.parentFP, k.depth, k.childNum, false⟩

/-- Modelled from the spec: the 78-byte wire layout (§4.1). -/
def serializedPayload (k : ExtendedKey) : Bytes :=
  k.version ++ [k.depth] ++ k.parentFP ++ natToBEPad 4 k.childNum ++ k.chainCode ++ k.key

/-- Modelled from the spec: `String()` (§4.1 encode contract).  Fails
only on a zeroed key; otherwise base58check of the 78-byte layout. -/
def extKeyString (k : ExtendedKey) : Except KeyErr String :=
  if k.key = [] then .error .zeroedExtendedKey
  else .ok (b58CheckEncode (serializedPayload k))

/-- Modelled from the spec: decoding `NewKeyFromString` (§4.1 decode
contract as pinned by the test-suite: length check, checksum check, key
material check; the version prefix is *not* checked against the
registry — `TestErrors` decodes an unsupported-version string
successfully and only `Neuter` reports `ErrUnknownHDKeyID`). -/
def newKeyFromString (s : String) : Except KeyErr ExtendedKey :=
  let decoded := b58Decode s
  if decoded.length ≠ 82 then .error .invalidKeyLen
  else
    let payload := decoded.take 78
    let cksum := decoded.drop 78
    if cksum ≠ checksum4 payload then .error .badChecksum
    else
      let version := payload.take 4
      let depth := payload.getD 4 0
      let parentFP := (payload.drop 5).take 4
      let childNum := beToNat ((payload.drop 9).take 4)
      let chainCode := (payload.drop 13).take 32
      let keyData := (payload.drop 45).take 33
      if keyData.getD 0 0 = 0 then
        let scalar := beToNat (keyData.drop 1)
        if scalar = 0 ∨ secpN ≤ scalar then .error .unusableSeed
        else .ok ⟨version, keyData, chainCode, parentFP, depth, childNum, true⟩
      else
        match parsePubKey keyData with
        | .error e => .error e
        | .ok _ => .ok ⟨version, keyData, chainCode, parentFP, depth, childNum, false⟩

/-- Modelled from the spec: `Zero()` (§4.3).  All byte attributes are
overwritten; the key becomes permanently unusable, reports `isPrivate =
false` and an all-zero parent fingerprint. -/
def zeroKey (_ : ExtendedKey) : ExtendedKey :=
  ⟨[], [], [], [0, 0, 0, 0], 0, 0, false⟩

/-- `IsPrivate()`. -/
def isPrivateK (k : ExtendedKey) : Bool := k.isPrivate

/-- `ParentFingerprint()`: the stored 4 parent-fingerprint bytes as a
big-endian number. -/
def parentFingerprint (k : ExtendedKey) : Nat := beToNat k.parentFP

/-- Modelled from the spec: `SetNet(net)` rewrites only the version
prefix, to the entry of the key's current privacy kind. -/
def setNet (k : ExtendedKey) (net : Params) : ExtendedKey :=
  { k with version := if k.isPrivate then net.hdPrivateKeyID else net.hdPublicKeyID }

/-- Modelled from the spec: `IsForNet(net)` checks membership of the
version prefix in the network's private/public version set. -/
def isForNet (k : ExtendedKey) (net : Params) : Bool :=
  k.version == net.hdPrivateKeyID || k.version == net.hdPublicKeyID

/-- `ECPrivKey()`: the private scalar, failing with `ErrNotPrivExtKey`
on a non-private key (including any zeroed key, which reports
`isPrivate = false`). -/
def ecPrivKey (k : ExtendedKey) : Except KeyErr Nat :=
  if k.isPrivate = false then .error .notPrivExtKey
  else .ok (beToNat (k.key.drop 1))

/-- `ECPubKey()`: parses the serialized compressed public key (on a
zeroed key the serialized bytes are empty and the secp256k1 parser's
empty-string error surfaces). -/
def ecPubKey (k : ExtendedKey) : Except KeyErr (Nat × Nat) :=
  parsePubKey (pubKeyBytes k)

/-- The rendered pay-to-pubkey-hash address for a 20-byte hash on a
network: 2-byte address prefix, hash, 4-byte double-BLAKE-256 checksum,
base58 (address rendering collaborator, §6). -/
def encodeAddress (netID : Bytes) (h160 : Bytes) : String :=
  b58CheckEncode (netID ++ h160)

/-- Modelled from the spec as pinned by `TestZero`: `Address(net)`
renders the hash160 of the serialized public key bytes; it does *not*
consult `ECPubKey` (the test expects a successful address from a zeroed
key, whose pubkey bytes are empty). -/
def address (k : ExtendedKey) (net : Params) : Except KeyErr String :=
  .ok (encodeAddress net.pubKeyHashAddrID (Hash160 (pubKeyBytes k)))

/-- Modelled from the spec: `GenerateSeed(length)` (§4.4), with the
process entropy source abstracted as a stream `rng` of bytes.  Lengths
outside `[16, 64]` fail with the seed-length-range error
(`ErrInvalidSeedLen` — the value whose message the test compares). -/
def generateSeed (rng : Nat → Nat) (length : Nat) : Except KeyErr Bytes :=
  if length < MinSeedBytes ∨ MaxSeedBytes < length then .error .invalidSeedLen
  else .ok ((List.range length).map rng)

/-- The non-zero tail of a list of naturals after its leading zeros. -/
def dropLeadZero : List Nat → List Nat
  | [] => []
  | d :: r => if d = 0 then dropLeadZero r else d :: r

/-! ## Concrete test-vector values

The seed of BIP32 test vector 1 and the extended keys it derives along
the path `m / 0H / 1` on the main network, spelled out field by field (the
claim theorems below establish that the derivation operations produce
exactly these). -/

/-- The 16-byte seed `000102…0e0f` of test vector 1. -/
def c1seed : Bytes := [0, 1, 2, 3, 4, 5, 6, 7, 8, 9, 10, 11, 12, 13, 14, 15]

/-- The master key of test vector 1 on the main network. -/
def c1m : ExtendedKey :=
  { version := [0x02, 0xbf, 0x45, 0x2c]
    key := [0x00, 0xe8, 0xf3, 0x2e, 0x72, 0x3d, 0xec, 0xf4, 0x05, 0x1a, 0xef,
            0xac, 0x8e, 0x2c, 0x93, 0xc9, 0xc5, 0xb2, 0x14, 0x31, 0x38, 0x17,
            0xcd, 0xb0, 0x1a, 0x14, 0x94, 0xb9, 0x17, 0xc8, 0x43, 0x6b, 0x35]
    chainCode := [0x87, 0x3d, 0xff, 0x81, 0xc0, 0x2f, 0x52, 0x56, 0x23, 0xfd,
                  0x1f, 0xe5, 0x16, 0x7e, 0xac, 0x3a, 0x55, 0xa0, 0x49, 0xde,
                  0x3d, 0x31, 0x4b, 0xb4, 0x2e, 0xe2, 0x27, 0xff, 0xed, 0x37,
                  0xd5, 0x08]
    parentFP := [0, 0, 0, 0]
    depth := 0
    childNum := 0
    isPrivate := true }

/-- The hardened child `m/0H` of `c1m`. -/
def c1k1 : ExtendedKey :=
  { version := [0x02, 0xbf, 0x45, 0x2c]
    key := [0x00, 0xed, 0xb2, 0xe1, 0x4f, 0x9e, 0xe7, 0x7d, 0x26, 0xdd, 0x93,
            0xb4, 0xec, 0xed, 0xe8, 0xd1, 0x6e, 0xd4, 0x08, 0xce, 0x14, 0x9b,
            0x6c, 0xd8, 0x0b, 0x07, 0x15, 0xa2, 0xd9, 0x11, 0xa0, 0xaf, 0xea]
    chainCode := [0x47, 0xfd, 0xac, 0xbd, 0x0f, 0x10, 0x97, 0x04, 0x3b, 0x78,
                  0xc6, 0x3c, 0x20, 0xc3, 0x4e, 0xf4, 0xed, 0x9a, 0x11, 0x1d,
                  0x98, 0x00, 0x47, 0xad, 0x16, 0x28, 0x2c, 0x7a, 0xe6, 0x23,
                  0x61, 0x41]
    parentFP := [0xbc, 0x49, 0x55, 0x88]
    depth := 1
    childNum := 0x80000000
    isPrivate := true }

/-- The normal child `m/0H/1` of `c1k1`. -/
def c1k2 : ExtendedKey :=
  { version := [0x02, 0xbf, 0x45, 0x2c]
    key := [0x00, 0x3c, 0x6c, 0xb8, 0xd0, 0xf6, 0xa2, 0x64, 0xc9, 0x1e, 0xa8,
            0xb5, 0x03, 0x0f, 0xad, 0xaa, 0x8e, 0x53, 0x8b, 0x02, 0x0f, 0x0a,
            0x38, 0x74, 0x21, 0xa1, 0x2d, 0xe9, 0x31, 0x9d, 0xc9, 0x33, 0x68]
    chainCode := [0x2a, 0x78, 0x57, 0x63, 0x13, 0x86, 0xba, 0x23, 0xda, 0xca,
                  0xc3, 0x41, 0x80, 0xdd, 0x19, 0x83, 0x73, 0x4e, 0x44, 0x4f,
                  0xdb, 0xf7, 0x74, 0x04, 0x15, 0x78, 0xe9, 0xb6, 0xad, 0xb3,
                  0x7c, 0x19]
    parentFP := [0xc6, 0x7b, 0xc2, 0xef]
    depth := 2
    childNum := 1
    isPrivate := true }

/-- The neutered (public) counterpart of `c1k2`. -/
def c1pub : ExtendedKey :=
  { version := [0x02, 0xbf, 0x49, 0x67]
    key := [0x03, 0x50, 0x1e, 0x45, 0x4b, 0xf0, 0x07, 0x51, 0xf2, 0x4b, 0x1b,
            0x48, 0x9a, 0xa9, 0x25, 0x21, 0x5d, 0x66, 0xaf, 0x22, 0x34, 0xe3,
            0x89, 0x1c, 0x3b, 0x21, 0xa5, 0x2b, 0xed, 0xb3, 0xcd, 0x71, 0x1c]
    chainCode := [0x2a, 0x78, 0x57, 0x63, 0x13, 0x86, 0xba, 0x23, 0xda, 0xca,
                  0xc3, 0x41, 0x80, 0xdd, 0x19, 0x83, 0x73, 0x4e, 0x44, 0x4f,
                  0xdb, 0xf7, 0x74, 0x04, 0x15, 0x78, 0xe9, 0xb6, 0xad, 0xb3,
                  0x7c, 0x19]
    parentFP := [0xc6, 0x7b, 0xc2, 0xef]
    depth := 2
    childNum := 1
    isPrivate := false }

/-- The fixed expected private-key string of the claim (test vector 1,
`m/0H/1`). -/
def c1PrivStr : String :=
  "aprv2ow6HZ4jikf4WXuauc4i3B5usZmv2uuCECYLoty9RbWrWcXePU6smqtCYKLk2kz4XKSHye8BHgcxKxoziX8aJgXvuyssehc9cn4CEm7eP2F"

/-- The fixed expected public-key string of the claim (test vector 1,
`m/0H/1`, neutered). -/
def c1PubStr : String :=
  "apub7Ld8Ry6ys8LjPzwNoFjJSak2SbHrCF66oW986R1SqsKFM6nR1rvTxLW4iUP4DPRvg7bbZc7fgtyn4p71vqJdBQSR9q9LvdUfpcD3DxH837w"

/-- The valid-checksum, unknown-version string of `TestErrors`. -/
def c3str : String :=
  "4s9bfpYH9CkJboPNLFC4BhTENPrjfmKwUxesnqxHBjv585bCLzVdQKuKQ5TouA57FkdDskrR695Z5U2wWwDUUVWXPg7V57sLpc9dMgx74LsVZGEB"

/-- Well-formedness of a live extended key: exactly the field shapes the
78-byte wire layout carries, with valid key material of the key's kind
(specification §3 invariants). -/
def WellFormedKey (k : ExtendedKey) : Prop :=
  k.version.length = 4 ∧ (∀ x ∈ k.version, x < 256) ∧
  k.parentFP.length = 4 ∧ (∀ x ∈ k.parentFP, x < 256) ∧
  k.chainCode.length = 32 ∧ (∀ x ∈ k.chainCode, x < 256) ∧
  k.depth < 256 ∧ k.childNum < 2 ^ 32 ∧
  k.key.length = 33 ∧ (∀ x ∈ k.key, x < 256) ∧
  (k.isPrivate = true →
    k.key.getD 0 0 = 0 ∧ 0 < beToNat (k.key.drop 1) ∧ beToNat (k.key.drop 1) < secpN) ∧
  (k.isPrivate = false →
    k.key.getD 0 0 ≠ 0 ∧ (parsePubKey k.key).isOk = true)

instance (k : ExtendedKey) : Decidable (WellFormedKey k) := by
  unfold WellFormedKey
  infer_instance

/-- What `SetNet` guarantees when retargeting `k` (whose version matches
its kind's entry for `n1`) to `n2`: only the version field is rewritten,
membership in the new network holds, and retargeting back restores the
key — hence its serialized string — exactly. -/
def SetNetSpec (k : ExtendedKey) (n1 n2 : Params) : Prop :=
  (setNet k n2).key = k.key ∧
  (setNet k n2).chainCode = k.chainCode ∧
  (setNet k n2).parentFP = k.parentFP ∧
  (setNet k n2).depth = k.depth ∧
  (setNet k n2).childNum = k.childNum ∧
  (setNet k n2).isPrivate = k.isPrivate ∧
  (setNet k n2).version =
    (if k.isPrivate then n2.hdPrivateKeyID else n2.hdPublicKeyID) ∧
  isForNet (setNet k n2) n2 = true ∧
  setNet (setNet k n2) n1 = k ∧
  extKeyString (setNet (setNet k n2) n1) = extKeyString k ∧
  (extKeyString k).isOk = true

/-! ## Lemmas: positional digits and the base58 codec -/

theorem digitsBE_eq_digits (b : Nat) (hb : 1 < b) :
    ∀ fuel n, n ≤ fuel → digitsBE b fuel n = (Nat.digits b n).reverse := by
  intro fuel
  induction fuel with
  | zero =>
    intro n hn
    have : n = 0 := Nat.le_zero.mp hn
    subst this
    simp [digitsBE]
  | succ f ih =>
    intro n hn
    by_cases h0 : n = 0
    · subst h0; simp [digitsBE]
    · have hdiv : n / b ≤ f := by
        have : n / b < n := Nat.div_lt_self (Nat.pos_of_ne_zero h0) hb
        omega
      rw [digitsBE, if_neg h0, ih (n / b) hdiv,
        Nat.digits_def' hb (Nat.pos_of_ne_zero h0)]
      simp

theorem foldl_mul_add_reverse (b : Nat) :
    ∀ (L : List Nat) (acc : Nat),
      L.reverse.foldl (fun a d => a * b + d) acc =
        acc * b ^ L.length + Nat.ofDigits b L := by
  intro L
  induction L with
  | nil => intro acc; simp [Nat.ofDigits]
  | cons d t ih =>
    intro acc
    rw [List.reverse_cons, List.foldl_append, ih acc]
    simp only [List.foldl_cons, List.foldl_nil, Nat.ofDigits_cons, List.length_cons]
    ring

theorem foldl_digitsBE (b : Nat) (hb : 1 < b) (n : Nat) :
    (digitsBE b n n).foldl (fun a d => a * b + d) 0 = n := by
  rw [digitsBE_eq_digits b hb n n le_rfl, foldl_mul_add_reverse, Nat.ofDigits_digits]
  simp

theorem foldl_replicate_zero (b z : Nat) (l : List Nat) :
    (List.replicate z 0 ++ l).foldl (fun a d => a * b + d) 0 =
      l.foldl (fun a d => a * b + d) 0 := by
  induction z with
  | zero => simp
  | succ z ih => simpa [List.replicate_succ] using ih

theorem countLeadZero_replicate_append (z : Nat) (l : List Nat)
    (h : l.head? ≠ some 0) :
    countLeadZero (List.replicate z 0 ++ l) = z := by
  induction z with
  | zero =>
    simp only [List.replicate, List.nil_append]
    cases l with
    | nil => rfl
    | cons d r =>
      have hd : d ≠ 0 := fun hc => h (by simp [hc])
      simp [countLeadZero, hd]
  | succ z ih => simp [List.replicate_succ, countLeadZero, ih]

theorem replicate_countLead_dropLead (l : List Nat) :
    List.replicate (countLeadZero l) 0 ++ dropLeadZero l = l := by
  induction l with
  | nil => rfl
  | cons d r ih =>
    by_cases h : d = 0
    · subst h
      simp [countLeadZero, dropLeadZero, List.replicate_succ, ih]
    · simp [countLeadZero, dropLeadZero, h]

theorem head?_dropLeadZero (l : List Nat) : (dropLeadZero l).head? ≠ some 0 := by
  induction l with
  | nil => simp [dropLeadZero]
  | cons d r ih =>
    by_cases h : d = 0
    · simpa [dropLeadZero, h] using ih
    · simp [dropLeadZero, h]

theorem mem_dropLeadZero {x : Nat} : ∀ {l : List Nat}, x ∈ dropLeadZero l → x ∈ l := by
  intro l
  induction l with
  | nil => simp [dropLeadZero]
  | cons d r ih =>
    by_cases h : d = 0
    · intro hx
      exact List.mem_cons_of_mem d (ih (by simpa [dropLeadZero, h] using hx))
    · intro hx
      simpa [dropLeadZero, h] using hx

theorem beToNat_eq_ofDigits (l : List Nat) :
    beToNat l = Nat.ofDigits 256 l.reverse := by
  have := foldl_mul_add_reverse 256 l.reverse 0
  simpa [beToNat] using this

theorem digitsBE_beToNat (l : List Nat) (h256 : ∀ x ∈ l, x < 256)
    (hhead : l.head? ≠ some 0) :
    digitsBE 256 (beToNat l) (beToNat l) = l := by
  rw [digitsBE_eq_digits 256 (by norm_num) _ _ le_rfl, beToNat_eq_ofDigits,
    Nat.digits_ofDigits 256 (by norm_num) l.reverse
      (fun x hx => h256 x (List.mem_reverse.mp hx))
      (fun hne => ?_), List.reverse_reverse]
  intro hzero
  apply hhead
  have hrev : l.head? = l.reverse.getLast? := by
    rw [← List.head?_reverse, List.reverse_reverse]
  rw [hrev, List.getLast?_eq_getLast _ hne, hzero]

theorem beToNat_dropLeadZero (l : List Nat) :
    beToNat (dropLeadZero l) = beToNat l := by
  conv_rhs => rw [← replicate_countLead_dropLead l]
  rw [beToNat, beToNat, foldl_replicate_zero]

theorem b58Val_b58Digit : ∀ d < 58, b58Val (b58Digit d) = some d := by decide

theorem b58Vals_map_digits (ds : List Nat) (h : ∀ d ∈ ds, d < 58) :
    b58Vals (ds.map b58Digit) = some ds := by
  induction ds with
  | nil => rfl
  | cons d t ih =>
    have hd := b58Val_b58Digit d (h d (List.mem_cons_self d t))
    have ht := ih (fun x hx => h x (List.mem_cons_of_mem d hx))
    simp [b58Vals, hd, ht]

theorem b58Vals_encoded (z : Nat) (ds : List Nat) (h : ∀ d ∈ ds, d < 58) :
    b58Vals (List.replicate z '1' ++ ds.map b58Digit) =
      some (List.replicate z 0 ++ ds) := by
  induction z with
  | zero => simpa using b58Vals_map_digits ds h
  | succ z ih =>
    have h1 : b58Val '1' = some 0 := by decide
    simp [List.replicate_succ, b58Vals, h1, ih]

theorem digitsBE_58_head (n : Nat) :
    (digitsBE 58 n n).head? ≠ some 0 := by
  rw [digitsBE_eq_digits 58 (by norm_num) n n le_rfl]
  by_cases h0 : n = 0
  · subst h0; simp
  · rw [List.head?_reverse]
    have hne : Nat.digits 58 n ≠ [] := Nat.digits_ne_nil_iff_ne_zero.mpr h0
    rw [List.getLast?_eq_getLast _ hne]
    intro hc
    exact Nat.getLast_digit_ne_zero 58 h0 (Option.some.inj hc)

theorem digitsBE_58_lt (n : Nat) : ∀ d ∈ digitsBE 58 n n, d < 58 := by
  rw [digitsBE_eq_digits 58 (by norm_num) n n le_rfl]
  intro d hd
  exact Nat.digits_lt_base (by norm_num) (List.mem_reverse.mp hd)

theorem natToBEPad_lt (w n : Nat) : ∀ x ∈ natToBEPad w n, x < 256 := by
  induction w generalizing n with
  | zero => simp [natToBEPad]
  | succ w ih =>
    intro x hx
    rw [natToBEPad] at hx
    rcases List.mem_append.mp hx with h1 | h1
    · exact ih (n / 256) x h1
    · simp only [List.mem_singleton] at h1
      subst h1
      exact Nat.mod_lt _ (by norm_num)

theorem natToLEPad_lt (w n : Nat) : ∀ x ∈ natToLEPad w n, x < 256 := by
  induction w generalizing n with
  | zero => simp [natToLEPad]
  | succ w ih =>
    intro x hx
    rw [natToLEPad] at hx
    rcases List.mem_cons.mp hx with h1 | h1
    · subst h1
      exact Nat.mod_lt _ (by norm_num)
    · exact ih (n / 256) x h1

theorem natToBEPad_length (w n : Nat) : (natToBEPad w n).length = w := by
  induction w generalizing n with
  | zero => rfl
  | succ w ih => simp [natToBEPad, ih]

theorem natToLEPad_length (w n : Nat) : (natToLEPad w n).length = w := by
  induction w generalizing n with
  | zero => rfl
  | succ w ih => simp [natToLEPad, ih]

theorem blake256_lt (m : Bytes) : ∀ x ∈ blake256 m, x < 256 := by
  intro x hx
  rw [blake256] at hx
  obtain ⟨a, ha, hxa⟩ := List.mem_flatten.mp hx
  obtain ⟨w, _, rfl⟩ := List.mem_map.mp ha
  exact natToBEPad_lt 4 w x hxa

theorem checksum4_lt (p : Bytes) : ∀ x ∈ checksum4 p, x < 256 := by
  intro x hx
  exact blake256_lt _ x (List.mem_of_mem_take hx)

theorem ripCompress_length (h : List Nat) (b : Bytes) :
    (ripCompress h b).length = 5 := rfl

theorem foldl_ripCompress_length (blocks : List (List Nat)) :
    ∀ h : List Nat, h.length = 5 → (blocks.foldl ripCompress h).length = 5 := by
  induction blocks with
  | nil => intro h hh; simpa using hh
  | cons b bs ih =>
    intro h _
    exact ih (ripCompress h b) (ripCompress_length h b)

/-- RIPEMD-160 digests are always exactly 20 bytes. -/
theorem ripemd160_length (m : Bytes) : (ripemd160 m).length = 20 := by
  rw [ripemd160, List.length_flatten, List.map_map]
  have hlen : ∀ l : List Nat,
      List.map (List.length ∘ natToLEPad 4) l = List.replicate l.length 4 := by
    intro l
    induction l with
    | nil => rfl
    | cons x xs ih => simp [Function.comp, natToLEPad_length, ih, List.replicate_succ]
  rw [hlen, foldl_ripCompress_length _ _ (by rfl), List.sum_replicate]
  rfl

theorem blakeCompress_length (h : List Nat) (b : Bytes) (t : Nat) :
    (blakeCompress h b t).length = 8 := rfl

theorem blakeFinal_length (h : List Nat) (rest : Bytes) (bl : Nat) :
    (blakeFinal h rest bl).length = 8 := by
  rw [blakeFinal]
  repeat' split
  all_goals exact blakeCompress_length _ _ _

theorem blakeLoop_length (bl : Nat) :
    ∀ (fuel : Nat) (h : List Nat) (t : Nat) (rem : Bytes),
      (blakeLoop bl fuel h t rem).length = 8 := by
  intro fuel
  induction fuel with
  | zero => intro h t rem; exact blakeFinal_length _ _ _
  | succ f ih =>
    intro h t rem
    rw [blakeLoop]
    split
    · exact ih _ _ _
    · exact blakeFinal_length _ _ _

/-- BLAKE-256 digests are always exactly 32 bytes. -/
theorem blake256_length (m : Bytes) : (blake256 m).length = 32 := by
  rw [blake256, List.length_flatten, List.map_map]
  have hlen : ∀ l : List Nat,
      List.map (List.length ∘ natToBEPad 4) l = List.replicate l.length 4 := by
    intro l
    induction l with
    | nil => rfl
    | cons x xs ih => simp [Function.comp, natToBEPad_length, ih, List.replicate_succ]
  rw [hlen, blakeLoop_length, List.sum_replicate]
  rfl

theorem checksum4_length (p : Bytes) : (checksum4 p).length = 4 := by
  rw [checksum4, List.length_take, blake256_length]
  rfl

theorem beToNat_natToBEPad4 (n : Nat) (h : n < 2 ^ 32) :
    beToNat (natToBEPad 4 n) = n := by
  simp only [natToBEPad, beToNat, List.foldl, List.nil_append, List.append_assoc,
    List.cons_append, List.foldl_cons, List.foldl_nil]
  omega

/-- Base58 decode is a left inverse of base58 encode on byte strings. -/
theorem b58Decode_b58Encode (l : Bytes) (h : ∀ x ∈ l, x < 256) :
    b58Decode (b58Encode l) = l := by
  rw [b58Encode, b58Decode]
  simp only [String.data]
  rw [b58Vals_encoded _ _ (digitsBE_58_lt (beToNat l))]
  simp only
  rw [countLeadZero_replicate_append _ _ (digitsBE_58_head (beToNat l))]
  have hv : (List.replicate (countLeadZero l) 0 ++
      digitsBE 58 (beToNat l) (beToNat l)).foldl (fun a d => a * 58 + d) 0 = beToNat l := by
    rw [foldl_replicate_zero, foldl_digitsBE 58 (by norm_num)]
  rw [hv, ← beToNat_dropLeadZero l,
    digitsBE_beToNat (dropLeadZero l) (fun x hx => h x (mem_dropLeadZero hx))
      (head?_dropLeadZero l)]
  exact replicate_countLead_dropLead l

/-! ## Lemmas: the 78-byte layout parses back to its fields -/

theorem serializedPayload_length (k : ExtendedKey) (h4 : k.version.length = 4)
    (hp : k.parentFP.length = 4) (hc : k.chainCode.length = 32)
    (hk : k.key.length = 33) : (serializedPayload k).length = 78 := by
  simp [serializedPayload, h4, hp, hc, hk, natToBEPad_length]

theorem serializedPayload_mem_lt (k : ExtendedKey)
    (hv256 : ∀ x ∈ k.version, x < 256) (hdep : k.depth < 256)
    (hp256 : ∀ x ∈ k.parentFP, x < 256) (hc256 : ∀ x ∈ k.chainCode, x < 256)
    (hk256 : ∀ x ∈ k.key, x < 256) :
    ∀ x ∈ serializedPayload k, x < 256 := by
  intro x hx
  rw [serializedPayload] at hx
  simp only [List.mem_append, List.mem_singleton] at hx
  rcases hx with ((((hx | hx) | hx) | hx) | hx) | hx
  · exact hv256 x hx
  · omega
  · exact hp256 x hx
  · exact natToBEPad_lt 4 _ x hx
  · exact hc256 x hx
  · exact hk256 x hx

/-- C2: for every valid (well-formed, non-zeroed) extended key `k`,
`String()` succeeds, and decoding the produced base58check string through
`NewKeyFromString` yields an extended key equal to `k` field for field
(hence `String` of the decoded key returns the same string byte-exactly). -/
theorem roundtrip_fields (k : ExtendedKey) (h : WellFormedKey k) :
    extKeyString k = .ok (b58CheckEncode (serializedPayload k)) ∧
    newKeyFromString (b58CheckEncode (serializedPayload k)) = .ok k := by
  obtain ⟨hv4, hv256, hp4, hp256, hc32, hc256, hdep, hcn, hk33, hk256, hpriv, hpub⟩ := h
  have hkeyne : k.key ≠ [] := by
    intro hc
    rw [hc] at hk33
    simp at hk33
  refine ⟨by rw [extKeyString, if_neg hkeyne], ?_⟩
  have hplen : (serializedPayload k).length = 78 :=
    serializedPayload_length k hv4 hp4 hc32 hk33
  have hfull256 : ∀ x ∈ serializedPayload k ++ checksum4 (serializedPayload k),
      x < 256 := by
    intro x hx
    rcases List.mem_append.mp hx with hx | hx
    · exact serializedPayload_mem_lt k hv256 hdep hp256 hc256 hk256 x hx
    · exact checksum4_lt _ x hx
  have hdec : b58Decode (b58CheckEncode (serializedPayload k)) =
      serializedPayload k ++ checksum4 (serializedPayload k) :=
    b58Decode_b58Encode _ hfull256
  have hlen82 : (serializedPayload k ++ checksum4 (serializedPayload k)).length = 82 := by
    rw [List.length_append, hplen, checksum4_length]
  have ht78 : (serializedPayload k ++ checksum4 (serializedPayload k)).take 78 =
      serializedPayload k := List.take_left' hplen
  have hd78 : (serializedPayload k ++ checksum4 (serializedPayload k)).drop 78 =
      checksum4 (serializedPayload k) := List.drop_left' hplen
  -- field extraction from the 78-byte payload
  have hra : serializedPayload k = k.version ++ ([k.depth] ++ (k.parentFP ++
      (natToBEPad 4 k.childNum ++ (k.chainCode ++ k.key)))) := by
    simp [serializedPayload]
  have htake4 : (serializedPayload k).take 4 = k.version := by
    rw [hra]
    exact List.take_left' hv4
  have hgetD4 : (serializedPayload k).getD 4 0 = k.depth := by
    rw [hra, List.getD_append_right _ _ _ _ (le_of_eq hv4)]
    simp [hv4]
  have hdrop5 : (serializedPayload k).drop 5 =
      k.parentFP ++ (natToBEPad 4 k.childNum ++ (k.chainCode ++ k.key)) := by
    have hgr : serializedPayload k = (k.version ++ [k.depth]) ++
        (k.parentFP ++ (natToBEPad 4 k.childNum ++ (k.chainCode ++ k.key))) := by
      simp [serializedPayload]
    rw [hgr]
    exact List.drop_left' (by simp [hv4])
  have hdrop9 : (serializedPayload k).drop 9 =
      natToBEPad 4 k.childNum ++ (k.chainCode ++ k.key) := by
    have hgr : serializedPayload k = ((k.version ++ [k.depth]) ++ k.parentFP) ++
        (natToBEPad 4 k.childNum ++ (k.chainCode ++ k.key)) := by
      simp [serializedPayload]
    rw [hgr]
    exact List.drop_left' (by simp [hv4, hp4])
  have hdrop13 : (serializedPayload k).drop 13 = k.chainCode ++ k.key := by
    have hgr : serializedPayload k = (((k.version ++ [k.depth]) ++ k.parentFP) ++
        natToBEPad 4 k.childNum) ++ (k.chainCode ++ k.key) := by
      simp [serializedPayload]
    rw [hgr]
    exact List.drop_left' (by simp [hv4, hp4, natToBEPad_length])
  have hdrop45 : (serializedPayload k).drop 45 = k.key := by
    have hgr : serializedPayload k = ((((k.version ++ [k.depth]) ++ k.parentFP) ++
        natToBEPad 4 k.childNum) ++ k.chainCode) ++ k.key := by
      simp [serializedPayload]
    rw [hgr]
    exact List.drop_left' (by simp [hv4, hp4, hc32, natToBEPad_length])
  have htakekey : k.key.take 33 = k.key :=
    List.take_of_length_le (le_of_eq hk33)
  simp only [newKeyFromString]
  rw [hdec, if_neg (fun hc => hc hlen82), ht78, hd78,
    if_neg (fun hc : checksum4 _ ≠ checksum4 _ => hc rfl),
    htake4, hgetD4, hdrop5, hdrop9, hdrop13, hdrop45,
    List.take_left' hp4, List.take_left' (natToBEPad_length 4 k.childNum),
    List.take_left' hc32, htakekey, beToNat_natToBEPad4 k.childNum hcn]
  cases hb : k.isPrivate with
  | true =>
    obtain ⟨h0, hlo, hhi⟩ := hpriv hb
    rw [if_pos h0, if_neg (by omega)]
    rw [← hb]
  | false =>
    obtain ⟨h0ne, hok⟩ := hpub hb
    rw [if_neg h0ne]
    cases hpk : parsePubKey k.key with
    | error e =>
      rw [hpk] at hok
      simp [Except.isOk, Except.toBool] at hok
    | ok pt =>
      rw [← hb]

/-- C2 witness: the concrete `m/0H/1` private key of test vector 1 is
well-formed and round-trips field for field. -/
theorem roundtrip_fields_witness :
    WellFormedKey c1k2 ∧
    (extKeyString c1k2 = .ok (b58CheckEncode (serializedPayload c1k2)) ∧
     newKeyFromString (b58CheckEncode (serializedPayload c1k2)) = .ok c1k2) :=
  ⟨by decide, roundtrip_fields c1k2 (by decide)⟩

/-! ## The remaining claim theorems -/

/-- C10: `Hash160` is RIPEMD-160 applied to a single application of the
chain hash `chainhash.HashB`, and its result is always 20 bytes. -/
theorem hash160_single_hash (b : Bytes) :
    Hash160 b = ripemd160 (chainhashHashB b) ∧ (Hash160 b).length = 20 :=
  ⟨rfl, ripemd160_length (chainhashHashB b)⟩

/-- C9: `NewMaster` fails with `ErrInvalidSeedLen` exactly for seeds
shorter than 16 or longer than 64 bytes, and `GenerateSeed` fails with the
seed-length-range error exactly for such requested lengths, otherwise
returning a seed of exactly the requested length. -/
theorem seed_length_bounds (seed : Bytes) (net : Params) (rng : Nat → Nat)
    (len : Nat) :
    (newMaster seed net = .error .invalidSeedLen ↔
      seed.length < MinSeedBytes ∨ MaxSeedBytes < seed.length) ∧
    (generateSeed rng len = .error .invalidSeedLen ↔
      len < MinSeedBytes ∨ MaxSeedBytes < len) ∧
    (MinSeedBytes ≤ len → len ≤ MaxSeedBytes →
      Except.map List.length (generateSeed rng len) = .ok len) := by
  refine ⟨⟨?_, ?_⟩, ⟨?_, ?_⟩, ?_⟩
  · intro h
    by_contra hc
    simp only [newMaster] at h
    rw [if_neg hc] at h
    split at h
    · exact absurd h (by simp)
    · exact absurd h (by simp)
  · intro h
    simp only [newMaster]
    rw [if_pos h]
  · intro h
    by_contra hc
    rw [generateSeed, if_neg hc] at h
    exact absurd h (by simp)
  · intro h
    rw [generateSeed, if_pos h]
  · intro h1 h2
    rw [generateSeed, if_neg (by omega)]
    simp [Except.map]

/-- C9 witness: a 32-byte request is in range and yields a 32-byte
seed. -/
theorem seed_length_bounds_witness :
    MinSeedBytes ≤ 32 ∧ 32 ≤ MaxSeedBytes ∧
    Except.map List.length (generateSeed (fun _ => 0) 32) = .ok 32 :=
  ⟨by decide, by decide,
    (seed_length_bounds [] mainNetParams (fun _ => 0) 32).2.2 (by decide) (by decide)⟩

/-- C6: deriving any hardened child (index at or above `2^31`) of any
public-only extended key fails with `ErrDeriveHardFromPublic` (the guard
precedes the HMAC step; the parent, being a pure value here, is never
changed). -/
theorem hardened_from_public (k : ExtendedKey) (i : Nat)
    (hpub : k.isPrivate = false) (hi : HardenedKeyStart ≤ i) :
    child k i = .error .deriveHardFromPublic := by
  simp only [child]
  rw [if_pos ⟨hpub, hi⟩]

/-- C6 witness: the neutered `m/0H/1` key refuses the hardened index
`2^31`. -/
theorem hardened_from_public_witness :
    c1pub.isPrivate = false ∧ HardenedKeyStart ≤ 2 ^ 31 ∧
    child c1pub (2 ^ 31) = .error .deriveHardFromPublic :=
  ⟨by decide, by decide, hardened_from_public c1pub (2 ^ 31) (by decide) (by decide)⟩

/-- C7: whenever `Neuter` succeeds, the result is public-only and
neutering it again returns it unchanged (idempotence). -/
theorem neuter_idempotent (k k' : ExtendedKey) (h : neuter k = .ok k') :
    neuter k' = .ok k' ∧ isPrivateK k' = false := by
  rw [neuter] at h
  by_cases hb : k.isPrivate = false
  · rw [if_pos hb] at h
    have hk : k = k' := Except.ok.inj h
    subst hk
    exact ⟨by rw [neuter, if_pos hb], hb⟩
  · rw [if_neg hb] at h
    cases hl : hdPrivateKeyToPublicKeyID k.version with
    | error e =>
      rw [hl] at h
      exact absurd h (by simp)
    | ok v =>
      rw [hl] at h
      have hk' : k' = ⟨v, pubKeyBytes k, k.chainCode, k.parentFP, k.depth,
          k.childNum, false⟩ := (Except.ok.inj h).symm
      subst hk'
      exact ⟨by rw [neuter, if_pos rfl], rfl⟩

/-- C7 witness: neutering the already-public `m/0H/1` key is the
identity, and the result carries no private material. -/
theorem neuter_idempotent_witness :
    neuter c1pub = .ok c1pub ∧
    (neuter c1pub = .ok c1pub ∧ isPrivateK c1pub = false) :=
  ⟨by decide, neuter_idempotent c1pub c1pub (by decide)⟩

/-- C4 (amended): after `Zero()`, `IsPrivate` reports false, the parent
fingerprint is zero, and `String()` fails with the dedicated
"zeroed extended key" error; but `ECPrivKey` fails with the generic
wrong-kind error `ErrNotPrivExtKey` (not a dedicated zeroed error) and
`ECPubKey` fails with the secp256k1 parser's generic empty-input error. -/
theorem zeroed_key_accessors (k : ExtendedKey) :
    isPrivateK (zeroKey k) = false ∧
    parentFingerprint (zeroKey k) = 0 ∧
    extKeyString (zeroKey k) = .error .zeroedExtendedKey ∧
    ecPrivKey (zeroKey k) = .error .notPrivExtKey ∧
    ecPubKey (zeroKey k) = .error (.pubKeyErr "pubkey string is empty") :=
  ⟨rfl, rfl, rfl, rfl, rfl⟩

/-- C4 counterexample: on a zeroed key, `ECPrivKey` fails with the very
same `ErrNotPrivExtKey` value that a live public key produces — a shared
wrong-kind error, not a dedicated "zeroed" error value — and `ECPubKey`
fails with the parser's generic empty-input error, also distinct from the
dedicated zeroed-key error value. -/
theorem zeroed_ecPrivKey_not_dedicated :
    ecPrivKey (zeroKey c1m) = .error .notPrivExtKey ∧
    ecPrivKey c1pub = .error .notPrivExtKey ∧
    KeyErr.notPrivExtKey ≠ KeyErr.zeroedExtendedKey ∧
    ecPubKey (zeroKey c1m) = .error (.pubKeyErr "pubkey string is empty") ∧
    KeyErr.pubKeyErr "pubkey string is empty" ≠ KeyErr.zeroedExtendedKey :=
  ⟨rfl, rfl, by decide, rfl, by decide⟩

/-- C5 (amended): `Address` never consults `ECPubKey` and never fails: it
renders the hash160 of the raw serialized public-key bytes, succeeding
even on a zeroed key (whose pubkey bytes are empty) while `ECPubKey`
fails there. -/
theorem address_ignores_pubkey_failure (k : ExtendedKey) (net : Params) :
    (address k net).isOk = true ∧
    ecPubKey (zeroKey k) = .error (.pubKeyErr "pubkey string is empty") ∧
    address (zeroKey k) net = .ok (encodeAddress net.pubKeyHashAddrID (Hash160 [])) :=
  ⟨rfl, rfl, rfl⟩

/-- C5 counterexample: on the zeroed master key, `ECPubKey` fails, yet
`Address` succeeds and returns the fixed address the test-suite expects. -/
theorem zeroed_address_succeeds :
    ecPubKey (zeroKey c1m) = .error (.pubKeyErr "pubkey string is empty") ∧
    address (zeroKey c1m) mainNetParams = .ok "AbC3Lvy49rPuwhnQHGPeFbEHg56Fw8Pf7oL" :=
  ⟨rfl, by decide⟩

/-- C8: `SetNet` rewrites only the version prefix (to the entry for the
key's privacy kind on the new network), after which `IsForNet` holds for
the new network, and retargeting back to the original network restores
the key and its serialized string exactly. -/
theorem setNet_version_only (k : ExtendedKey) (n1 n2 : Params)
    (hlive : k.key ≠ [])
    (hver : k.version = if k.isPrivate then n1.hdPrivateKeyID else n1.hdPublicKeyID) :
    SetNetSpec k n1 n2 := by
  obtain ⟨ver, key, cc, pfp, dep, cn, ip⟩ := k
  simp only at hver hlive
  have hback : setNet (setNet ⟨ver, key, cc, pfp, dep, cn, ip⟩ n2) n1 =
      ⟨ver, key, cc, pfp, dep, cn, ip⟩ := by
    cases ip <;> simp_all [setNet]
  refine ⟨rfl, rfl, rfl, rfl, rfl, rfl, rfl, ?_, hback, by rw [hback], ?_⟩
  · cases ip <;> simp [isForNet, setNet]
  · rw [extKeyString, if_neg hlive]
    rfl

/-- C1: on the main network, `NewMaster` of the fixed 16-byte test seed
followed by `Child(2^31)` and `Child(1)` succeeds, `String()` of the
resulting key is the fixed base58check private string, and `String()` of
its `Neuter()` is the distinct fixed public string. -/
theorem bip32_vector1_m0H1 :
    newMaster c1seed mainNetParams = .ok c1m ∧
    child c1m (2 ^ 31) = .ok c1k1 ∧
    child c1k1 1 = .ok c1k2 ∧
    extKeyString c1k2 = .ok c1PrivStr ∧
    neuter c1k2 = .ok c1pub ∧
    extKeyString c1pub = .ok c1PubStr ∧
    c1PrivStr ≠ c1PubStr := by
  refine ⟨by decide, ?_, ?_, by decide, ?_, by decide, by decide⟩
  · have hpub : pubKeyBytes c1m =
        [0x03, 0x39, 0xa3, 0x60, 0x13, 0x30, 0x15, 0x97, 0xda, 0xef, 0x41, 0xfb,
         0xe5, 0x93, 0xa0, 0x2c, 0xc5, 0x13, 0xd0, 0xb5, 0x55, 0x27, 0xec, 0x2d,
         0xf1, 0x05, 0x0e, 0x2e, 0x8f, 0xf4, 0x9c, 0x85, 0xc2] := by decide
    simp only [child, hpub]
    decide
  · have hpub : pubKeyBytes c1k1 =
        [0x03, 0x5a, 0x78, 0x46, 0x62, 0xa4, 0xa2, 0x0a, 0x65, 0xbf, 0x6a, 0xab,
         0x9a, 0xe9, 0x8a, 0x6c, 0x06, 0x8a, 0x81, 0xc5, 0x2e, 0x4b, 0x03, 0x2c,
         0x0f, 0xb5, 0x40, 0x0c, 0x70, 0x6c, 0xfc, 0xcc, 0x56] := by decide
    simp only [child, hpub]
    decide
  · have hpub : pubKeyBytes c1k2 =
        [0x03, 0x50, 0x1e, 0x45, 0x4b, 0xf0, 0x07, 0x51, 0xf2, 0x4b, 0x1b, 0x48,
         0x9a, 0xa9, 0x25, 0x21, 0x5d, 0x66, 0xaf, 0x22, 0x34, 0xe3, 0x89, 0x1c,
         0x3b, 0x21, 0xa5, 0x2b, 0xed, 0xb3, 0xcd, 0x71, 0x1c] := by decide
    simp only [neuter, hpub]
    decide

/-- C3 counterexample: the unsupported-version string of `TestErrors`
base58-decodes to exactly 82 bytes with a valid checksum, its 4-byte
version prefix matches no registered network entry, and yet
`NewKeyFromString` succeeds on it. -/
theorem unknown_version_decodes :
    (b58Decode c3str).length = 82 ∧
    (b58Decode c3str).drop 78 = checksum4 ((b58Decode c3str).take 78) ∧
    (b58Decode c3str).take 4 ≠ mainNetParams.hdPrivateKeyID ∧
    (b58Decode c3str).take 4 ≠ mainNetParams.hdPublicKeyID ∧
    (b58Decode c3str).take 4 ≠ testNet2Params.hdPrivateKeyID ∧
    (b58Decode c3str).take 4 ≠ testNet2Params.hdPublicKeyID ∧
    (b58Decode c3str).take 4 ≠ simNetParams.hdPrivateKeyID ∧
    (b58Decode c3str).take 4 ≠ simNetParams.hdPublicKeyID ∧
    (newKeyFromString c3str).isOk = true :=
  ⟨by decide, by decide, by decide, by decide, by decide, by decide, by decide,
   by decide, by decide⟩

/-- C3 (amended): decoding does not consult the version table — any
string whose base58 decoding has exactly 82 bytes, a valid checksum and
valid private-key material is accepted by `NewKeyFromString` whatever its
version prefix; the version-unrecognized failure `ErrUnknownHDKeyID`
surfaces only when `Neuter` performs the registry lookup. -/
theorem unknown_version_surfaces_at_neuter (s : String)
    (hlen : (b58Decode s).length = 82)
    (hck : (b58Decode s).drop 78 = checksum4 ((b58Decode s).take 78))
    (h0 : ((((b58Decode s).take 78).drop 45).take 33).getD 0 0 = 0)
    (hlo : 0 < beToNat (((((b58Decode s).take 78).drop 45).take 33).drop 1))
    (hhi : beToNat (((((b58Decode s).take 78).drop 45).take 33).drop 1) < secpN)
    (hunk : ∀ p ∈ hdVersionTable, ((b58Decode s).take 78).take 4 ≠ p.hdPrivateKeyID) :
    ∃ k, newKeyFromString s = .ok k ∧ k.isPrivate = true ∧
      k.version = ((b58Decode s).take 78).take 4 ∧
      neuter k = .error .unknownHDKeyID := by
  refine ⟨⟨((b58Decode s).take 78).take 4, (((b58Decode s).take 78).drop 45).take 33,
    (((b58Decode s).take 78).drop 13).take 32, (((b58Decode s).take 78).drop 5).take 4,
    ((b58Decode s).take 78).getD 4 0, beToNat (((b58Decode s).take 78).drop 9 |>.take 4),
    true⟩, ?_, rfl, rfl, ?_⟩
  · simp only [newKeyFromString]
    rw [if_neg (fun hc => hc hlen), if_neg (fun hc => hc hck), if_pos h0,
      if_neg (by omega)]
  · rw [neuter]
    rw [if_neg (by simp)]
    have hnone : hdVersionTable.find?
        (fun p => p.hdPrivateKeyID == ((b58Decode s).take 78).take 4) = none :=
      List.find?_eq_none.mpr (fun p hp => by
        simpa using (hunk p hp).symm)
    rw [hdPrivateKeyToPublicKeyID, hnone]

/-- C3 amended witness: the unsupported-version string of `TestErrors`
satisfies the hypotheses, decodes successfully and fails only at
`Neuter`. -/
theorem unknown_version_surfaces_at_neuter_witness :
    ((b58Decode c3str).length = 82 ∧
     (b58Decode c3str).drop 78 = checksum4 ((b58Decode c3str).take 78) ∧
     ((((b58Decode c3str).take 78).drop 45).take 33).getD 0 0 = 0 ∧
     0 < beToNat (((((b58Decode c3str).take 78).drop 45).take 33).drop 1) ∧
     beToNat (((((b58Decode c3str).take 78).drop 45).take 33).drop 1) < secpN ∧
     (∀ p ∈ hdVersionTable, ((b58Decode c3str).take 78).take 4 ≠ p.hdPrivateKeyID)) ∧
    (∃ k, newKeyFromString c3str = .ok k ∧ k.isPrivate = true ∧
      k.version = ((b58Decode c3str).take 78).take 4 ∧
      neuter k = .error .unknownHDKeyID) :=
  ⟨⟨by decide, by decide, by decide, by decide, by decide, by decide⟩,
    unknown_version_surfaces_at_neuter c3str (by decide) (by decide) (by decide)
      (by decide) (by decide) (by decide)⟩

/-- C8 witness: retargeting the `m/0H/1` main-network private key to the
simulation network and back. -/
theorem setNet_version_only_witness :
    (c1k2.key ≠ [] ∧
     c1k2.version =
       if c1k2.isPrivate then mainNetParams.hdPrivateKeyID
       else mainNetParams.hdPublicKeyID) ∧
    SetNetSpec c1k2 mainNetParams simNetParams :=
  ⟨⟨by decide, by decide⟩,
    setNet_version_only c1k2 mainNetParams simNetParams (by decide) (by decide)⟩

end Abcutil
